import Mathlib

/-!
# Verification of the AICS accuracy-test backend

Shallow embedding of the repository's scoring utilities (`scoring.py`),
judge-model client (`llm_client.py`), pipeline orchestrator (`pipeline.py`)
and streaming driver (`server.py`), together with theorems settling the
frozen specification claims.

Strings are modelled as `String` / `List Char`; Python float results of
exact small-integer divisions are modelled as `ℚ`; wall-clock latencies
are modelled as non-negative rationals supplied by the environment.
-/

set_option autoImplicit false
set_option linter.unusedSectionVars false

namespace AICS

variable {α : Type} [DecidableEq α]

/-! ## `scoring.py` — `_levenshtein_distance`, faithful DP embedding

Python builds `current_row` left to right: `current_row = [i]`, then for each
`j`, `min(current_row[j-1] + 1, previous_row[j] + 1, previous_row[j-1] + cost)`.
`rowAux` carries the last computed cell (`current_row[j-1]`) and the remaining
tail of the previous row starting at index `j-1`. -/

def levCost (x y : α) : Nat := if x = y then 0 else 1

def rowAux (refTok : α) : List α → List Nat → Nat → List Nat
  | [], _, _ => []
  | y :: ys, prev, last =>
    let pj1 := prev.headD 0
    let pj := prev.tail.headD 0
    let cur := min (min (last + 1) (pj + 1)) (pj1 + levCost refTok y)
    cur :: rowAux refTok ys prev.tail cur

/-- One iteration of the Python outer loop: `current_row = [i]` followed by the
inner loop over `hyp`. -/
def nextRow (refTok : α) (i : Nat) (prev : List Nat) (hyp : List α) : List Nat :=
  i :: rowAux refTok hyp prev i

/-- The Python outer loop: successive rows for `i = 1, 2, ...` over `ref`. -/
def levLoop (hyp : List α) : List α → Nat → List Nat → List Nat
  | [], _, prev => prev
  | r :: rs, i, prev => levLoop hyp rs (i + 1) (nextRow r i prev hyp)

/-- `_levenshtein_distance(ref, hyp)`: start from `previous_row = range(len(hyp)+1)`,
run the loop, return `previous_row[-1]`. -/
def levenshtein_distance (ref hyp : List α) : Nat :=
  (levLoop hyp ref 1 (List.range (hyp.length + 1))).getLastD 0

/-! ## Reference (textbook) Levenshtein distance, recursive form -/

def levSpec : List α → List α → Nat
  | [], ys => ys.length
  | _ :: xs, [] => xs.length + 1
  | x :: xs, y :: ys =>
    min (min (levSpec (x :: xs) ys + 1) (levSpec xs (y :: ys) + 1))
      (levSpec xs ys + levCost x y)
termination_by xs ys => xs.length + ys.length

theorem levSpec_nil_left (ys : List α) : levSpec [] ys = ys.length := by
  cases ys <;> simp [levSpec]

theorem levSpec_nil_right (xs : List α) : levSpec xs [] = xs.length := by
  cases xs <;> simp [levSpec]

theorem levSpec_cons_cons (x y : α) (xs ys : List α) :
    levSpec (x :: xs) (y :: ys) =
      min (min (levSpec (x :: xs) ys + 1) (levSpec xs (y :: ys) + 1))
        (levSpec xs ys + levCost x y) := by
  rw [levSpec]

/-! ### Edit scripts: `EditSeq xs ys n` holds when `xs` can be turned into `ys`
with `n` unit insertions/deletions/substitutions. -/

inductive EditSeq : List α → List α → Nat → Prop
  | nil : EditSeq [] [] 0
  | keep (a : α) {xs ys : List α} {n : Nat} :
      EditSeq xs ys n → EditSeq (a :: xs) (a :: ys) n
  | subst {a b : α} (h : a ≠ b) {xs ys : List α} {n : Nat} :
      EditSeq xs ys n → EditSeq (a :: xs) (b :: ys) (n + 1)
  | ins (b : α) {xs ys : List α} {n : Nat} :
      EditSeq xs ys n → EditSeq xs (b :: ys) (n + 1)
  | del (a : α) {xs ys : List α} {n : Nat} :
      EditSeq xs ys n → EditSeq (a :: xs) ys (n + 1)

theorem editSeq_levSpec : ∀ xs ys : List α, EditSeq xs ys (levSpec xs ys)
  | [], [] => by simpa [levSpec_nil_left] using EditSeq.nil
  | [], y :: ys => by
    simpa [levSpec_nil_left] using (editSeq_levSpec [] ys).ins y
  | x :: xs, [] => by
    simpa [levSpec_nil_right] using (editSeq_levSpec xs []).del x
  | x :: xs, y :: ys => by
    rw [levSpec_cons_cons]
    rcases min_cases (min (levSpec (x :: xs) ys + 1) (levSpec xs (y :: ys) + 1))
        (levSpec xs ys + levCost x y) with ⟨h1, -⟩ | ⟨h1, -⟩
    · rw [h1]
      rcases min_cases (levSpec (x :: xs) ys + 1) (levSpec xs (y :: ys) + 1) with
          ⟨h2, -⟩ | ⟨h2, -⟩
      · rw [h2]; exact (editSeq_levSpec (x :: xs) ys).ins y
      · rw [h2]; exact (editSeq_levSpec xs (y :: ys)).del x
    · rw [h1]
      by_cases hxy : x = y
      · subst hxy
        simpa [levCost] using (editSeq_levSpec xs ys).keep x
      · simpa [levCost, hxy] using (editSeq_levSpec xs ys).subst hxy
termination_by xs ys => xs.length + ys.length

theorem levSpec_le_of_editSeq {xs ys : List α} {n : Nat}
    (h : EditSeq xs ys n) : levSpec xs ys ≤ n := by
  induction h with
  | nil => simp [levSpec_nil_left]
  | keep a h ih =>
    rename_i xs' ys' n'
    have h1 : levSpec (a :: xs') (a :: ys') ≤ levSpec xs' ys' + levCost a a := by
      rw [levSpec_cons_cons]; exact min_le_right _ _
    simp [levCost] at h1
    omega
  | subst hab h ih =>
    rename_i a b xs' ys' n'
    have h1 : levSpec (a :: xs') (b :: ys') ≤ levSpec xs' ys' + levCost a b := by
      rw [levSpec_cons_cons]; exact min_le_right _ _
    simp [levCost, hab] at h1
    omega
  | ins b h ih =>
    rename_i xs' ys' n'
    cases xs' with
    | nil => simp [levSpec_nil_left] at ih ⊢; omega
    | cons x xs'' =>
      calc levSpec (x :: xs'') (b :: ys') ≤ levSpec (x :: xs'') ys' + 1 := by
            rw [levSpec_cons_cons]
            exact le_trans (min_le_left _ _) (min_le_left _ _)
        _ ≤ n' + 1 := by omega
  | del a h ih =>
    rename_i xs' ys' n'
    cases ys' with
    | nil => simp [levSpec_nil_right] at ih ⊢; omega
    | cons y ys'' =>
      calc levSpec (a :: xs') (y :: ys'') ≤ levSpec xs' (y :: ys'') + 1 := by
            rw [levSpec_cons_cons]
            exact le_trans (min_le_left _ _) (min_le_right _ _)
        _ ≤ n' + 1 := by omega

theorem levSpec_self : ∀ xs : List α, levSpec xs xs = 0
  | [] => by simp [levSpec_nil_left]
  | x :: xs => by
    have h := levSpec_le_of_editSeq ((editSeq_levSpec xs xs).keep x)
    rw [levSpec_self xs] at h
    omega

theorem eq_of_editSeq_zero {xs ys : List α} (h : EditSeq xs ys 0) : xs = ys := by
  generalize hn : 0 = n at h
  induction h with
  | nil => rfl
  | keep a h ih => rw [ih hn]
  | subst hab h ih => omega
  | ins b h ih => omega
  | del a h ih => omega

theorem levSpec_eq_zero_iff {xs ys : List α} : levSpec xs ys = 0 ↔ xs = ys := by
  constructor
  · intro h
    have := editSeq_levSpec xs ys
    rw [h] at this
    exact eq_of_editSeq_zero this
  · rintro rfl
    exact levSpec_self xs

theorem editSeq_symm {xs ys : List α} {n : Nat}
    (h : EditSeq xs ys n) : EditSeq ys xs n := by
  induction h with
  | nil => exact .nil
  | keep a _ ih => exact ih.keep a
  | subst hab _ ih => exact ih.subst (Ne.symm hab)
  | ins b _ ih => exact ih.del b
  | del a _ ih => exact ih.ins a

theorem levSpec_comm (xs ys : List α) : levSpec xs ys = levSpec ys xs :=
  le_antisymm (levSpec_le_of_editSeq (editSeq_symm (editSeq_levSpec ys xs)))
    (levSpec_le_of_editSeq (editSeq_symm (editSeq_levSpec xs ys)))

theorem editSeq_snoc_keep {xs ys : List α} {n : Nat}
    (h : EditSeq xs ys n) (a : α) : EditSeq (xs ++ [a]) (ys ++ [a]) n := by
  induction h with
  | nil => exact EditSeq.nil.keep a
  | keep c _ ih => exact ih.keep c
  | subst hcd _ ih => exact ih.subst hcd
  | ins b _ ih => exact ih.ins b
  | del c _ ih => exact ih.del c

theorem editSeq_snoc_subst {a b : α} (hab : a ≠ b) {xs ys : List α} {n : Nat}
    (h : EditSeq xs ys n) : EditSeq (xs ++ [a]) (ys ++ [b]) (n + 1) := by
  induction h with
  | nil => exact (EditSeq.nil.subst hab : EditSeq [a] [b] 1)
  | keep c _ ih => exact ih.keep c
  | subst hcd _ ih => exact ih.subst hcd
  | ins b' _ ih => exact ih.ins b'
  | del c _ ih => exact ih.del c

theorem editSeq_snoc_ins (b : α) {xs ys : List α} {n : Nat}
    (h : EditSeq xs ys n) : EditSeq xs (ys ++ [b]) (n + 1) := by
  induction h with
  | nil => exact EditSeq.nil.ins b
  | keep c _ ih => exact ih.keep c
  | subst hcd _ ih => exact ih.subst hcd
  | ins b' _ ih => exact ih.ins b'
  | del c _ ih => exact ih.del c

theorem editSeq_snoc_del (a : α) {xs ys : List α} {n : Nat}
    (h : EditSeq xs ys n) : EditSeq (xs ++ [a]) ys (n + 1) := by
  induction h with
  | nil => exact EditSeq.nil.del a
  | keep c _ ih => exact ih.keep c
  | subst hcd _ ih => exact ih.subst hcd
  | ins b' _ ih => exact ih.ins b'
  | del c _ ih => exact ih.del c

theorem editSeq_reverse {xs ys : List α} {n : Nat}
    (h : EditSeq xs ys n) : EditSeq xs.reverse ys.reverse n := by
  induction h with
  | nil => exact .nil
  | keep a _ ih => simpa [List.reverse_cons] using editSeq_snoc_keep ih a
  | subst hab _ ih => simpa [List.reverse_cons] using editSeq_snoc_subst hab ih
  | ins b _ ih => simpa [List.reverse_cons] using editSeq_snoc_ins b ih
  | del a _ ih => simpa [List.reverse_cons] using editSeq_snoc_del a ih

theorem levSpec_reverse (xs ys : List α) :
    levSpec xs.reverse ys.reverse = levSpec xs ys := by
  apply le_antisymm
  · exact levSpec_le_of_editSeq (editSeq_reverse (editSeq_levSpec xs ys))
  · have h := levSpec_le_of_editSeq
      (editSeq_reverse (editSeq_levSpec xs.reverse ys.reverse))
    simpa [List.reverse_reverse] using h

/-! ### The DP rows compute `levSpec` on reversed prefixes

After the outer loop has consumed the ref tokens `r1 .. ri` (so the reversed
processed prefix is `pr = [ri, .., r1]`), cell `j` of the row holds
`levSpec pr ((hyp.take j).reverse)`.  `specRowAux pr hrev ys` lists the cells
for the hyp positions still to come, `hrev` being the reversed hyp prefix
already consumed. -/

def specRowAux (pr : List α) : List α → List α → List Nat
  | _, [] => []
  | hrev, y :: ys => levSpec pr (y :: hrev) :: specRowAux pr (y :: hrev) ys

theorem rowAux_spec (r : α) :
    ∀ (ys hrev pr : List α),
      rowAux r ys (levSpec pr hrev :: specRowAux pr hrev ys) (levSpec (r :: pr) hrev)
        = specRowAux (r :: pr) hrev ys
  | [], _, _ => rfl
  | y :: ys, hrev, pr => by
    simp only [specRowAux, rowAux, List.headD_cons, List.tail_cons]
    rw [← levSpec_cons_cons r y pr hrev]
    rw [rowAux_spec r ys (y :: hrev) pr]

theorem nextRow_spec (r : α) (pr hyp : List α) :
    nextRow r (pr.length + 1) (levSpec pr [] :: specRowAux pr [] hyp) hyp
      = levSpec (r :: pr) [] :: specRowAux (r :: pr) [] hyp := by
  have hlen : pr.length + 1 = levSpec (r :: pr) [] := by
    rw [levSpec_nil_right]; simp
  unfold nextRow
  rw [hlen, rowAux_spec r hyp [] pr]

theorem levLoop_spec (hyp : List α) :
    ∀ (rs pr : List α),
      levLoop hyp rs (pr.length + 1) (levSpec pr [] :: specRowAux pr [] hyp)
        = levSpec (rs.reverse ++ pr) [] :: specRowAux (rs.reverse ++ pr) [] hyp
  | [], pr => by simp [levLoop]
  | r :: rs, pr => by
    show levLoop hyp rs (pr.length + 1 + 1)
        (nextRow r (pr.length + 1) (levSpec pr [] :: specRowAux pr [] hyp) hyp) = _
    rw [nextRow_spec r pr hyp]
    have hlen : pr.length + 1 + 1 = (r :: pr).length + 1 := by simp
    rw [hlen, levLoop_spec hyp rs (r :: pr)]
    simp

theorem specRowAux_nil_left :
    ∀ (ys hrev : List α),
      specRowAux ([] : List α) hrev ys
        = (List.range ys.length).map (fun j => hrev.length + 1 + j)
  | [], _ => rfl
  | y :: ys, hrev => by
    show levSpec [] (y :: hrev) :: specRowAux ([] : List α) (y :: hrev) ys = _
    rw [levSpec_nil_left, specRowAux_nil_left ys (y :: hrev)]
    simp only [List.length_cons]
    rw [List.range_succ_eq_map, List.map_cons, List.map_map]
    have h2 : ((fun j => hrev.length + 1 + j) ∘ Nat.succ)
        = fun j => hrev.length + 1 + 1 + j := by
      funext j
      simp [Function.comp]
      omega
    rw [h2]

theorem range_eq_specRow (hyp : List α) :
    List.range (hyp.length + 1)
      = levSpec ([] : List α) [] :: specRowAux ([] : List α) [] hyp := by
  rw [specRowAux_nil_left hyp [], levSpec_nil_left, List.range_succ_eq_map]
  have h : (fun j => List.length ([] : List α) + 1 + j) = Nat.succ := by
    funext j
    simp
    omega
  rw [h]
  rfl

theorem specRow_getLastD :
    ∀ (ys hrev pr : List α) (d : Nat),
      (levSpec pr hrev :: specRowAux pr hrev ys).getLastD d
        = levSpec pr (ys.reverse ++ hrev)
  | [], _, _, _ => by simp [specRowAux]
  | y :: ys, hrev, pr, d => by
    simp only [specRowAux]
    rw [List.getLastD_cons]
    rw [specRow_getLastD ys (y :: hrev) pr (levSpec pr hrev)]
    simp

/-- The DP of `_levenshtein_distance` computes the textbook Levenshtein
distance. -/
theorem levenshtein_distance_eq_levSpec (ref hyp : List α) :
    levenshtein_distance ref hyp = levSpec ref hyp := by
  unfold levenshtein_distance
  rw [range_eq_specRow hyp]
  have h0 : (1 : Nat) = List.length ([] : List α) + 1 := rfl
  rw [h0, levLoop_spec hyp ref []]
  rw [specRow_getLastD hyp [] (ref.reverse ++ []) 0]
  simp [levSpec_reverse]

/-! ## `scoring.py` — `cer` and `wer`

Python float results of the exact integer divisions are modelled as `ℚ`. -/

/-- `cer(ref, hyp)`: character error rate (`scoring.py`, lines 31–39). -/
def cer (ref hyp : String) : ℚ :=
  let ref_seq := ref.toList
  let hyp_seq := hyp.toList
  if ref_seq.isEmpty then (if hyp_seq.isEmpty then 0 else 1)
  else (levenshtein_distance ref_seq hyp_seq : ℚ) / (ref_seq.length : ℚ)

/-- Python `str.split()` with no separator: split on runs of whitespace,
discarding empty fields. -/
def splitWSAux : List Char → List Char → List (List Char)
  | [], acc => if acc.isEmpty then [] else [acc.reverse]
  | c :: cs, acc =>
    if c.isWhitespace then
      (if acc.isEmpty then splitWSAux cs [] else acc.reverse :: splitWSAux cs [])
    else splitWSAux cs (c :: acc)

def pySplit (s : String) : List (List Char) := splitWSAux s.toList []

/-- `wer(ref, hyp)`: word error rate over whitespace-delimited tokens
(`scoring.py`, lines 42–50). -/
def wer (ref hyp : String) : ℚ :=
  let ref_tokens := pySplit ref
  let hyp_tokens := pySplit hyp
  if ref_tokens.isEmpty then (if hyp_tokens.isEmpty then 0 else 1)
  else (levenshtein_distance ref_tokens hyp_tokens : ℚ) / (ref_tokens.length : ℚ)

theorem string_eq_iff_toList {s t : String} : s = t ↔ s.toList = t.toList := by
  constructor
  · rintro rfl; rfl
  · intro h
    exact String.ext h

theorem cer_of_empty_ref {ref : String} (h : ref.toList = []) (hyp : String) :
    cer ref hyp = if hyp.toList.isEmpty then 0 else 1 := by
  have h' : ref.data = [] := h
  simp [cer, h']

theorem cer_of_nonempty_ref {ref : String} (h : ref.toList ≠ []) (hyp : String) :
    cer ref hyp
      = (levenshtein_distance ref.toList hyp.toList : ℚ) / (ref.toList.length : ℚ) := by
  have h' : ¬ ref.data = [] := h
  simp [cer, h']

theorem wer_of_nonempty_ref {ref : String} (h : pySplit ref ≠ []) (hyp : String) :
    wer ref hyp
      = (levenshtein_distance (pySplit ref) (pySplit hyp) : ℚ) / ((pySplit ref).length : ℚ) := by
  simp [wer, h]

theorem cer_eq_zero_iff (ref hyp : String) : cer ref hyp = 0 ↔ ref = hyp := by
  rcases eq_or_ne ref.toList [] with h | h
  · rw [cer_of_empty_ref h hyp, string_eq_iff_toList, h]
    rcases eq_or_ne hyp.toList [] with h2 | h2
    · simp [h2]
    · simp [h2, List.isEmpty_iff]
  · rw [cer_of_nonempty_ref h hyp, string_eq_iff_toList]
    rw [div_eq_zero_iff]
    have hlen : ((ref.toList.length : ℚ) = 0) ↔ False := by
      simpa using List.length_eq_zero.not.mpr h
    rw [hlen]
    simp only [or_false, Nat.cast_eq_zero]
    rw [levenshtein_distance_eq_levSpec, levSpec_eq_zero_iff]

/-! ## Claim theorems about `scoring.py` -/

/-- Claim C5: `cer(ref, hyp) = 0` iff `ref = hyp`; `cer("", "") = 0`;
`cer("", hyp) = 1` for non-empty `hyp`; and for non-empty `ref`, `cer`
equals the (textbook) Levenshtein edit distance over characters divided by
the number of characters of `ref`. -/
theorem cer_basic_properties :
    (∀ ref hyp : String, cer ref hyp = 0 ↔ ref = hyp)
    ∧ cer "" "" = 0
    ∧ (∀ hyp : String, hyp ≠ "" → cer "" hyp = 1)
    ∧ (∀ ref hyp : String, ref ≠ "" →
        cer ref hyp = (levSpec ref.toList hyp.toList : ℚ) / (ref.toList.length : ℚ)) := by
  refine ⟨cer_eq_zero_iff, ?_, ?_, ?_⟩
  · rw [cer_of_empty_ref rfl ""]
    simp
  · intro hyp h
    rw [cer_of_empty_ref rfl hyp]
    have h' : ¬ hyp.data = [] := by
      intro hh
      exact h (string_eq_iff_toList.mpr hh)
    simp [List.isEmpty_iff, h']
  · intro ref hyp h
    have h' : ref.toList ≠ [] := by
      intro hh
      exact h (string_eq_iff_toList.mpr hh)
    rw [cer_of_nonempty_ref h' hyp, levenshtein_distance_eq_levSpec]

theorem cer_basic_properties_witness :
    cer "ab" "ab" = 0 ∧ cer "" "x" = 1
      ∧ cer "a" "bbb" = (levSpec "a".toList "bbb".toList : ℚ) / ("a".toList.length : ℚ) :=
  ⟨(cer_basic_properties.1 "ab" "ab").mpr rfl,
   cer_basic_properties.2.2.1 "x" (by decide),
   cer_basic_properties.2.2.2 "a" "bbb" (by decide)⟩

/-- Claim C8: the DP `_levenshtein_distance` with unit costs is symmetric:
`_levenshtein_distance(a, b) == _levenshtein_distance(b, a)` for all token
sequences `a`, `b`. -/
theorem levenshtein_distance_symm {β : Type} [DecidableEq β] (a b : List β) :
    levenshtein_distance a b = levenshtein_distance b a := by
  rw [levenshtein_distance_eq_levSpec, levenshtein_distance_eq_levSpec, levSpec_comm]

theorem levenshtein_distance_symm_witness :
    levenshtein_distance ['a', 'b'] ['b'] = levenshtein_distance ['b'] ['a', 'b'] :=
  levenshtein_distance_symm ['a', 'b'] ['b']

/-- Claim C9: `cer` and `wer` are not clamped to `[0, 1]`: a hypothesis much
longer than a non-empty reference yields a rate above 1 (both functions are
pure Lean functions of their arguments, hence deterministic). -/
theorem cer_wer_unclamped :
    (∃ ref hyp : String, ref ≠ "" ∧ 1 < cer ref hyp)
      ∧ (∃ ref hyp : String, ref ≠ "" ∧ 1 < wer ref hyp) := by
  constructor
  · refine ⟨"a", "bbb", by decide, ?_⟩
    rw [cer_of_nonempty_ref (by decide) "bbb"]
    rw [show levenshtein_distance "a".toList "bbb".toList = 3 from by decide]
    rw [show ("a".toList.length : ℚ) = 1 from by norm_num [String.toList]]
    norm_num
  · refine ⟨"a", "b b b", by decide, ?_⟩
    rw [wer_of_nonempty_ref (by decide) "b b b"]
    rw [show levenshtein_distance (pySplit "a") (pySplit "b b b") = 3 from by decide]
    rw [show ((pySplit "a").length : ℚ) = 1 from by norm_num [show pySplit "a" = [['a']] from by decide]]
    norm_num

/-! ## `scoring.py` — `check_answer_with_keywords`

Python strings are modelled at the `List Char` level so that all operations
are structurally recursive: `pyStrip` is `str.strip()` (whitespace at both
ends), `pyLower` is `str.lower()` (ASCII case folding, which is all the
claims exercise), `splitComma` is `str.split(",")`, and `containsSub` is the
substring test `needle in hay`. -/

def pyStrip (s : List Char) : List Char :=
  ((s.dropWhile Char.isWhitespace).reverse.dropWhile Char.isWhitespace).reverse

def pyLower (s : List Char) : List Char := s.map Char.toLower

def splitCommaAux : List Char → List Char → List (List Char)
  | [], acc => [acc.reverse]
  | c :: cs, acc =>
    if c = ',' then acc.reverse :: splitCommaAux cs [] else splitCommaAux cs (c :: acc)

def splitComma (s : List Char) : List (List Char) := splitCommaAux s []

def listPrefixOf : List Char → List Char → Bool
  | [], _ => true
  | _ :: _, [] => false
  | n :: ns, h :: hs => (n = h) && listPrefixOf ns hs

/-- Python's substring containment `needle in hay`. -/
def containsSub (ns : List Char) : List Char → Bool
  | [] => ns.isEmpty
  | h :: t => listPrefixOf ns (h :: t) || containsSub ns t

/-- The `keywords` argument of `check_answer_with_keywords` is either a comma
separated string or an iterable of strings. -/
inductive Keywords where
  | str (s : String)
  | list (l : List String)

/-- The `items` list built by `check_answer_with_keywords`: split / filter out
blank entries / strip each keyword. -/
def keyword_items : Keywords → List (List Char)
  | .str s => ((splitComma s.toList).map pyStrip).filter (fun i => !i.isEmpty)
  | .list l =>
    ((l.map String.toList).filter
      (fun i => !i.isEmpty && !(pyStrip i).isEmpty)).map pyStrip

/-- `check_answer_with_keywords(answer, keywords)` (`scoring.py`, lines 53–68):
returns `(not missing, missing)` where `missing` are the parsed keywords whose
lowercase form is not a substring of the lowercased answer, and `(False, [])`
when no usable keyword was supplied. -/
def check_answer_with_keywords (answer : String) (keywords : Keywords) :
    Bool × List (List Char) :=
  let items := keyword_items keywords
  if items.isEmpty then (false, [])
  else
    let normalized_answer := pyLower answer.toList
    let missing := items.filter (fun kw => !containsSub (pyLower kw) normalized_answer)
    (missing.isEmpty, missing)

/-- Claim C6: keywords are trimmed and matched case-insensitively as
substrings of the answer; the result is `(allMatched, missingKeywords)` with
the missing keywords listed in order (a sublist of the parsed keywords, a
keyword being missing exactly when its lowercase form is not contained in the
lowercased answer); the two concrete examples of the spec hold; and an
empty/ineffective keyword specification yields `(false, [])`. -/
theorem check_answer_with_keywords_spec :
    check_answer_with_keywords "The lion is a carnivore" (.str "lion, carnivore")
      = (true, [])
    ∧ check_answer_with_keywords "The lion is here" (.str "lion, carnivore")
      = (false, ["carnivore".toList])
    ∧ (∀ (answer : String) (kws : Keywords), keyword_items kws = [] →
        check_answer_with_keywords answer kws = (false, []))
    ∧ (∀ (answer : String) (kws : Keywords) (kw : List Char),
        kw ∈ (check_answer_with_keywords answer kws).2 ↔
          kw ∈ keyword_items kws
            ∧ containsSub (pyLower kw) (pyLower answer.toList) = false)
    ∧ (∀ (answer : String) (kws : Keywords),
        (check_answer_with_keywords answer kws).1 = true ↔
          keyword_items kws ≠ []
            ∧ ∀ kw ∈ keyword_items kws,
                containsSub (pyLower kw) (pyLower answer.toList) = true)
    ∧ (∀ (answer : String) (kws : Keywords),
        (check_answer_with_keywords answer kws).2.Sublist (keyword_items kws)) := by
  refine ⟨by decide, by decide, ?_, ?_, ?_, ?_⟩
  · intro answer kws h
    simp [check_answer_with_keywords, h]
  · intro answer kws kw
    rcases eq_or_ne (keyword_items kws) [] with h | h
    · simp [check_answer_with_keywords, h]
    · have hcond : (keyword_items kws).isEmpty = false := by
        simp [List.isEmpty_iff, h]
      simp [check_answer_with_keywords, hcond, List.mem_filter]
  · intro answer kws
    rcases eq_or_ne (keyword_items kws) [] with h | h
    · simp [check_answer_with_keywords, h]
    · have hcond : (keyword_items kws).isEmpty = false := by
        simp [List.isEmpty_iff, h]
      simp [check_answer_with_keywords, hcond, List.isEmpty_iff,
        List.filter_eq_nil_iff, h]
  · intro answer kws
    rcases eq_or_ne (keyword_items kws) [] with h | h
    · simp [check_answer_with_keywords, h]
    · have hcond : (keyword_items kws).isEmpty = false := by
        simp [List.isEmpty_iff, h]
      simp only [check_answer_with_keywords, hcond, Bool.false_eq_true, if_false]
      exact List.filter_sublist _

theorem check_answer_with_keywords_spec_witness :
    check_answer_with_keywords "x" (.str " , ") = (false, []) :=
  check_answer_with_keywords_spec.2.2.1 "x" (.str " , ") (by decide)

/-! ## `text_utils.py` — `normalize_text` -/

/-- Collapse every maximal run of whitespace to a single space
(the `re.sub(r"\s+", " ", ...)` step); the flag records whether the previous
character was part of a whitespace run already emitted as `' '`. -/
def collapseWSAux : Bool → List Char → List Char
  | _, [] => []
  | inRun, c :: cs =>
    if c.isWhitespace then
      (if inRun then collapseWSAux true cs else ' ' :: collapseWSAux true cs)
    else c :: collapseWSAux false cs

def collapseWS (s : List Char) : List Char := collapseWSAux false s

/-- `normalize_text(text)` (`text_utils.py`): empty/None input gives `""`,
otherwise strip, lowercase and collapse whitespace. -/
def normalize_text (text : String) : String :=
  if text.toList.isEmpty then ""
  else ⟨collapseWS (pyLower (pyStrip text.toList))⟩

/-! ## `llm_client.py` — `evaluate_answer_with_llm`

The delegate judge-model call (OpenAI chat completion plus `json.loads`) is
external I/O; its observable outcome is an explicit input. `score : Option Int`
models the presence of the `"score"` key in the returned dict: the failure
branch of the source builds `{"is_correct": False, "reason": ...}` WITHOUT a
`"score"` key, which `score = none` records. -/

structure EvaluationResult where
  is_correct : Bool
  score : Option Int
  reason : String
deriving DecidableEq, Repr

/-- Observable outcome of the delegate call inside the `try` block:
the API call raises; the response content is empty/None (the code then raises
`ValueError("Empty response from OpenAI")`); `json.loads` raises; or a JSON
object is parsed, with each expected field optionally present. -/
inductive DelegateOutcome where
  | apiError (msg : String)
  | emptyContent
  | invalidJson (msg : String)
  | parsed (is_correct : Option Bool) (score : Option Int) (reason : Option String)
deriving DecidableEq, Repr

/-- `evaluate_answer_with_llm` (`llm_client.py`, lines 67–94), as a function of
the delegate outcome.  `str(exc)` of the raised exception is the message
embedded after `"Evaluation failed: "`. -/
def evaluate_answer_with_llm : DelegateOutcome → EvaluationResult
  | .apiError msg => ⟨false, none, "Evaluation failed: " ++ msg⟩
  | .emptyContent => ⟨false, none, "Evaluation failed: Empty response from OpenAI"⟩
  | .invalidJson msg => ⟨false, none, "Evaluation failed: " ++ msg⟩
  | .parsed ic sc rs => ⟨ic.getD false, some (sc.getD 0), rs.getD "No reason provided"⟩

/-- Claim C1 (code bug): on every failure of the delegate call the evaluator
returns without raising, with `is_correct = false` and a reason embedding the
failure description — but the failure branch omits the `"score"` key entirely
(`score = none`) instead of returning `score = 0`; the function's own
`EvaluationResult` TypedDict declares `score: int` as required, and
`pipeline.py` reads `eval_res["score"]` unconditionally. -/
theorem evaluate_answer_with_llm_failure_no_score :
    (evaluate_answer_with_llm (.apiError "connection timed out")).is_correct = false
    ∧ (evaluate_answer_with_llm (.apiError "connection timed out")).reason
        = "Evaluation failed: connection timed out"
    ∧ (evaluate_answer_with_llm (.apiError "connection timed out")).score = none :=
  ⟨rfl, rfl, rfl⟩

/-! ## `pipeline.py` — `ProcessingPipeline.process_item` -/

structure PipelineResult where
  id : Int
  question : String
  reference_answer : String
  audio_path : Option String := none
  tts_latency : ℚ := 0
  stt_text : String := ""
  stt_latency : ℚ := 0
  ai_answer : String := ""
  chatbase_latency : ℚ := 0
  score : Int := 0
  reason : String := ""
  eval_latency : ℚ := 0
  total_latency : ℚ := 0
  status : String := "pending"
  error_msg : Option String := none
deriving DecidableEq, Repr

def defaultResult : PipelineResult := { id := 0, question := "", reference_answer := "" }

/-- Behaviour of the external collaborators and of the clock during one
`process_item` call.  Each stage's `Except` carries either its value or the
`str(exc)` of the exception it raises; each latency is the corresponding
`time.perf_counter()` difference. -/
structure StageWorld where
  wavExists : Bool
  ttsResult : Except String Unit
  gcsBucket : Option String
  gcsUpload : Except String String
  wavPath : String
  sttResult : Except String String
  chatbaseResult : Except String String
  evalOutcome : DelegateOutcome
  ttsLatency : ℚ
  sttLatency : ℚ
  chatbaseLatency : ℚ
  evalLatency : ℚ
  totalLatency : ℚ
deriving Repr

/-- `ProcessingPipeline.process_item` (`pipeline.py`, lines 54–141).

Stage 1 (TTS) runs `generate_tts_for_text` only when the wav file does not
already exist.  The GCS upload sits in an inner `try/except` and can never
fail the item (it falls back to the local path).  Stage 4 reads
`eval_res["score"]`; when the evaluator's fallback dict has no `"score"` key
this raises `KeyError('score')`, whose `str` is `"'score'"`, caught by the
outer handler.  Every `raise` inside the `try` lands in the single
`except Exception` handler, which sets `status = "error"` and
`error_msg = str(e)`; `total_latency` is set on both paths. -/
def process_item (w : StageWorld) (item_id : Int)
    (question reference_answer : String) : PipelineResult :=
  let result0 : PipelineResult :=
    { id := item_id, question := question, reference_answer := reference_answer }
  match (if w.wavExists then Except.ok () else w.ttsResult) with
  | .error e =>
    { result0 with status := "error", error_msg := some e,
                   total_latency := w.totalLatency }
  | .ok _ =>
    let r1 := { result0 with tts_latency := w.ttsLatency }
    let r2 := { r1 with audio_path := some (match w.gcsBucket with
        | some _ => (match w.gcsUpload with | .ok url => url | .error _ => w.wavPath)
        | none => w.wavPath) }
    match w.sttResult with
    | .error e =>
      { r2 with status := "error", error_msg := some e,
                total_latency := w.totalLatency }
    | .ok stt_raw =>
      let r3 := { r2 with stt_text := normalize_text stt_raw,
                          stt_latency := w.sttLatency }
      match w.chatbaseResult with
      | .error e =>
        { r3 with status := "error", error_msg := some e,
                  total_latency := w.totalLatency }
      | .ok answer =>
        let r4 := { r3 with ai_answer := answer,
                            chatbase_latency := w.chatbaseLatency }
        if reference_answer.toList.isEmpty then
          { r4 with reason := "No reference answer provided",
                    eval_latency := w.evalLatency,
                    status := "success", total_latency := w.totalLatency }
        else
          let eval_res := evaluate_answer_with_llm w.evalOutcome
          match eval_res.score with
          | none =>
            { r4 with status := "error", error_msg := some "'score'",
                      total_latency := w.totalLatency }
          | some sc =>
            { r4 with score := sc, reason := eval_res.reason,
                      eval_latency := w.evalLatency,
                      status := "success", total_latency := w.totalLatency }

/-- An all-stages-succeed environment whose judge model returns the given
score; all latencies are zero. -/
def okWorld (sc : Int) : StageWorld where
  wavExists := true
  ttsResult := .ok ()
  gcsBucket := none
  gcsUpload := .ok ""
  wavPath := "audio/q1_00000000.wav"
  sttResult := .ok "hello"
  chatbaseResult := .ok "the answer"
  evalOutcome := .parsed (some true) (some sc) (some "ok")
  ttsLatency := 0
  sttLatency := 0
  chatbaseLatency := 0
  evalLatency := 0
  totalLatency := 0

/-- An environment whose TTS stage raises `"boom"`. -/
def ttsErrWorld : StageWorld :=
  { okWorld 0 with wavExists := false, ttsResult := .error "boom" }

/-- Claim C4: `process_item` is a total function of the environment (it never
raises); when a stage raises, the result has `status = "error"` with the
exception message preserved verbatim in `error_msg`, the latencies of the
completed stages retained, and the latencies of the failing and later stages
still at their zero defaults. -/
theorem process_item_error_handling :
    ∀ (w : StageWorld) (i : Int) (q ra : String),
      (∀ e, w.wavExists = false → w.ttsResult = .error e →
        process_item w i q ra
          = { id := i, question := q, reference_answer := ra,
              status := "error", error_msg := some e,
              total_latency := w.totalLatency })
      ∧ (∀ e, (if w.wavExists then Except.ok () else w.ttsResult) = .ok () →
          w.sttResult = .error e →
          (process_item w i q ra).status = "error"
          ∧ (process_item w i q ra).error_msg = some e
          ∧ (process_item w i q ra).tts_latency = w.ttsLatency
          ∧ (process_item w i q ra).stt_latency = 0
          ∧ (process_item w i q ra).chatbase_latency = 0
          ∧ (process_item w i q ra).eval_latency = 0)
      ∧ (∀ e s, (if w.wavExists then Except.ok () else w.ttsResult) = .ok () →
          w.sttResult = .ok s → w.chatbaseResult = .error e →
          (process_item w i q ra).status = "error"
          ∧ (process_item w i q ra).error_msg = some e
          ∧ (process_item w i q ra).tts_latency = w.ttsLatency
          ∧ (process_item w i q ra).stt_latency = w.sttLatency
          ∧ (process_item w i q ra).chatbase_latency = 0
          ∧ (process_item w i q ra).eval_latency = 0)
      ∧ (∀ s a, (if w.wavExists then Except.ok () else w.ttsResult) = .ok () →
          w.sttResult = .ok s → w.chatbaseResult = .ok a →
          ra.toList.isEmpty = false →
          (evaluate_answer_with_llm w.evalOutcome).score = none →
          (process_item w i q ra).status = "error"
          ∧ (process_item w i q ra).error_msg = some "'score'"
          ∧ (process_item w i q ra).tts_latency = w.ttsLatency
          ∧ (process_item w i q ra).stt_latency = w.sttLatency
          ∧ (process_item w i q ra).chatbase_latency = w.chatbaseLatency
          ∧ (process_item w i q ra).eval_latency = 0) := by
  intro w i q ra
  refine ⟨?_, ?_, ?_, ?_⟩
  · intro e hwav htts
    simp [process_item, hwav, htts]
  · intro e h1 h2
    simp [process_item, h1, h2]
  · intro e s h1 h2 h3
    simp [process_item, h1, h2, h3]
  · intro s a h1 h2 h3 h4 h5
    have h4' : ¬ ra.data = [] := by
      simpa [List.isEmpty_iff] using h4
    simp [process_item, h1, h2, h3, h4', h5]

theorem process_item_error_handling_witness :
    process_item ttsErrWorld 1 "q" "r"
      = { id := 1, question := "q", reference_answer := "r",
          status := "error", error_msg := some "boom",
          total_latency := ttsErrWorld.totalLatency } :=
  (process_item_error_handling ttsErrWorld 1 "q" "r").1 "boom" rfl rfl

/-- Claim C10: for every environment (with a non-negative measured total
latency, as `time.perf_counter` differences are), `process_item` never returns
status `"pending"`: the status is `"success"` or `"error"`, `total_latency`
is set and non-negative, and `error_msg` is non-`None` only on error. -/
theorem process_item_status_invariants :
    ∀ (w : StageWorld) (i : Int) (q ra : String), 0 ≤ w.totalLatency →
      ((process_item w i q ra).status = "success"
          ∨ (process_item w i q ra).status = "error")
      ∧ 0 ≤ (process_item w i q ra).total_latency
      ∧ ((process_item w i q ra).error_msg ≠ none →
          (process_item w i q ra).status = "error") := by
  intro w i q ra h
  cases h1 : (if w.wavExists then Except.ok () else w.ttsResult) with
  | error e => simp [process_item, h1, h]
  | ok u =>
    cases h2 : w.sttResult with
    | error e => simp [process_item, h1, h2, h]
    | ok sraw =>
      cases h3 : w.chatbaseResult with
      | error e => simp [process_item, h1, h2, h3, h]
      | ok ans =>
        by_cases h4 : ra.data = []
        · simp [process_item, h1, h2, h3, h4, h]
        · cases h5 : (evaluate_answer_with_llm w.evalOutcome).score with
          | none => simp [process_item, h1, h2, h3, h4, h5, h]
          | some sc => simp [process_item, h1, h2, h3, h4, h5, h]

theorem process_item_status_invariants_witness :
    (((process_item (okWorld 80) 1 "q" "r").status = "success"
        ∨ (process_item (okWorld 80) 1 "q" "r").status = "error")
      ∧ 0 ≤ (process_item (okWorld 80) 1 "q" "r").total_latency
      ∧ ((process_item (okWorld 80) 1 "q" "r").error_msg ≠ none →
          (process_item (okWorld 80) 1 "q" "r").status = "error")) :=
  process_item_status_invariants (okWorld 80) 1 "q" "r" (le_refl 0)

/-- Claim C3 counterexample: with every stage succeeding and an empty
reference answer, the recorded reason is `"No reference answer provided"`
(capital `N`), not the exact string `"no reference answer provided"` the claim
demands. -/
theorem process_item_skip_reason_counterexample :
    (process_item (okWorld 80) 1 "q" "").status = "success"
    ∧ (process_item (okWorld 80) 1 "q" "").score = 0
    ∧ (process_item (okWorld 80) 1 "q" "").reason ≠ "no reference answer provided" := by
  decide

/-- Claim C3 (amended): for every item whose reference answer is empty, if all
earlier stages succeed, `process_item` returns `status = "success"`,
`score = 0`, and `reason = "No reference answer provided"` — the
skip-scoring path is not treated as an error. -/
theorem process_item_skip_scoring (w : StageWorld) (i : Int) (q : String)
    (h1 : (if w.wavExists then Except.ok () else w.ttsResult) = .ok ())
    (h2 : ∃ s, w.sttResult = .ok s) (h3 : ∃ a, w.chatbaseResult = .ok a) :
    (process_item w i q "").status = "success"
    ∧ (process_item w i q "").score = 0
    ∧ (process_item w i q "").reason = "No reference answer provided" := by
  obtain ⟨s, h2⟩ := h2
  obtain ⟨a, h3⟩ := h3
  simp [process_item, h1, h2, h3]

theorem process_item_skip_scoring_witness :
    ((process_item (okWorld 80) 1 "q" "").status = "success"
      ∧ (process_item (okWorld 80) 1 "q" "").score = 0
      ∧ (process_item (okWorld 80) 1 "q" "").reason = "No reference answer provided") :=
  process_item_skip_scoring (okWorld 80) 1 "q" rfl ⟨_, rfl⟩ ⟨_, rfl⟩

/-! ## `server.py` — the `/ws/test` websocket endpoint

The endpoint receives a list of items, runs each through the pipeline, and
after each item pushes one `update` message carrying the item's result and
the running aggregate statistics, then one `complete` message.  Each item is
paired with the `StageWorld` describing the collaborators' behaviour while it
is processed. -/

structure ItemInput where
  id : Int
  question : String
  reference_answer : String
deriving Repr

inductive WsMessage where
  | error (message : String)
  | update (result : PipelineResult) (processed total : Nat)
      (avg_score avg_latency : ℚ)
  | complete
deriving DecidableEq, Repr

def runItem (iw : ItemInput × StageWorld) : PipelineResult :=
  process_item iw.2 iw.1.id iw.1.question iw.1.reference_answer

def resultsOf (items : List (ItemInput × StageWorld)) : List PipelineResult :=
  items.map runItem

/-- Sum of `score` over the results with `status == "success"`. -/
def succScoreSum : List PipelineResult → Int
  | [] => 0
  | r :: rs => (if r.status = "success" then r.score else 0) + succScoreSum rs

/-- Sum of `total_latency` over the results with `status == "success"`. -/
def succLatSum : List PipelineResult → ℚ
  | [] => 0
  | r :: rs => (if r.status = "success" then r.total_latency else 0) + succLatSum rs

/-- The `for item in items` loop of `websocket_endpoint` (`server.py`, lines
205–264): running counters `processed`, `total_score`, `total_latency`
(the latter two incremented only for successful items), one `update` message
per item with `avg_score = total_score / processed if processed else 0` and
likewise for `avg_latency`. -/
def wsRun (total : Nat) :
    List (ItemInput × StageWorld) → Nat → Int → ℚ → List WsMessage
  | [], _, _, _ => []
  | iw :: rest, processed, total_score, total_latency =>
    let res := runItem iw
    let processed2 := processed + 1
    let total_score2 :=
      if res.status = "success" then total_score + res.score else total_score
    let total_latency2 :=
      if res.status = "success" then total_latency + res.total_latency
      else total_latency
    WsMessage.update res processed2 total
        (if processed2 = 0 then 0 else (total_score2 : ℚ) / (processed2 : ℚ))
        (if processed2 = 0 then 0 else total_latency2 / (processed2 : ℚ))
      :: wsRun total rest processed2 total_score2 total_latency2

/-- `websocket_endpoint` (`server.py`, lines 189–266): an `error` message when
no items were supplied, otherwise one `update` per item followed by
`complete`. -/
def websocket_endpoint (items : List (ItemInput × StageWorld)) : List WsMessage :=
  if items.isEmpty then [.error "No items to process"]
  else wsRun items.length items 0 0 0 ++ [.complete]

/-- Closed form of the loop: the `k`-th message is an `update` for the `k`-th
result, with `processed = processed₀ + k + 1` and the running sums grown by
the success-only sums over the first `k+1` results. -/
theorem wsRun_eq (total : Nat) :
    ∀ (items : List (ItemInput × StageWorld)) (processed : Nat) (ts : Int) (tl : ℚ),
      wsRun total items processed ts tl
        = (List.range items.length).map (fun k =>
            WsMessage.update ((resultsOf items).getD k defaultResult)
              (processed + k + 1) total
              (((ts + succScoreSum ((resultsOf items).take (k + 1)) : Int) : ℚ)
                / ((processed + k + 1 : Nat) : ℚ))
              ((tl + succLatSum ((resultsOf items).take (k + 1)))
                / ((processed + k + 1 : Nat) : ℚ))) := by
  intro items
  induction items with
  | nil => intro processed ts tl; simp [wsRun, resultsOf]
  | cons iw rest ih =>
    intro processed ts tl
    by_cases hs : (runItem iw).status = "success"
    · simp only [wsRun, hs, if_pos, if_true, Nat.succ_ne_zero, if_false, if_neg,
        not_false_eq_true]
      rw [ih (processed + 1) (ts + (runItem iw).score) (tl + (runItem iw).total_latency)]
      rw [show resultsOf (iw :: rest) = runItem iw :: resultsOf rest from rfl]
      rw [List.length_cons, List.range_succ_eq_map, List.map_cons, List.map_map]
      congr 1
      · simp [succScoreSum, succLatSum, hs]
      · apply List.map_congr_left
        intro k _
        simp only [Function.comp, List.getD_cons_succ, List.take_succ_cons,
          succScoreSum, succLatSum, hs, if_pos, if_true]
        have e1 : processed + 1 + k + 1 = processed + (k + 1) + 1 := by omega
        have e2 : ts + (runItem iw).score
            + succScoreSum ((resultsOf rest).take (k + 1))
            = ts + ((runItem iw).score
                + succScoreSum ((resultsOf rest).take (k + 1))) := by ring
        have e3 : tl + (runItem iw).total_latency
            + succLatSum ((resultsOf rest).take (k + 1))
            = tl + ((runItem iw).total_latency
                + succLatSum ((resultsOf rest).take (k + 1))) := by ring
        rw [e1, e2, e3]
    · simp only [wsRun, hs, if_neg, Nat.succ_ne_zero, if_false, not_false_eq_true]
      rw [ih (processed + 1) ts tl]
      rw [show resultsOf (iw :: rest) = runItem iw :: resultsOf rest from rfl]
      rw [List.length_cons, List.range_succ_eq_map, List.map_cons, List.map_map]
      congr 1
      · simp [succScoreSum, succLatSum, hs]
      · apply List.map_congr_left
        intro k _
        simp only [Function.comp, List.getD_cons_succ, List.take_succ_cons,
          succScoreSum, succLatSum, hs, if_neg, not_false_eq_true, if_false]
        have e1 : processed + 1 + k + 1 = processed + (k + 1) + 1 := by omega
        rw [e1]
        norm_num

theorem map_getD_range {β : Type} (l : List β) (d : β) :
    (List.range l.length).map (fun k => l.getD k d) = l := by
  induction l with
  | nil => simp
  | cons x t ih =>
    rw [List.length_cons, List.range_succ_eq_map, List.map_cons, List.map_map]
    simp only [List.getD_cons_zero, Function.comp_def, List.getD_cons_succ]
    rw [ih]

theorem wsRun_length (total : Nat) (items : List (ItemInput × StageWorld))
    (processed : Nat) (ts : Int) (tl : ℚ) :
    (wsRun total items processed ts tl).length = items.length := by
  rw [wsRun_eq]
  simp

/-- Projection used to state which pipeline result an `update` message
carries. -/
def msgResult : WsMessage → Option PipelineResult
  | .update r _ _ _ _ => some r
  | _ => none

/-- Projection of the `avg_score` statistic of an `update` message. -/
def msgAvgScore : WsMessage → Option ℚ
  | .update _ _ _ a _ => some a
  | _ => none

/-- Claim C7: for every non-empty item list, the websocket endpoint emits
exactly one `update` message per item — in item-input order, the `k`-th update
carrying the `k`-th item's pipeline result — followed by exactly one
`complete` message. -/
theorem websocket_endpoint_stream (items : List (ItemInput × StageWorld))
    (h : items ≠ []) :
    ∃ us : List WsMessage,
      websocket_endpoint items = us ++ [WsMessage.complete]
      ∧ us.length = items.length
      ∧ (∀ m ∈ us, ∃ r p a b, m = WsMessage.update r p items.length a b)
      ∧ us.map msgResult = (resultsOf items).map some := by
  have hcond : items.isEmpty = false := by simp [List.isEmpty_iff, h]
  refine ⟨wsRun items.length items 0 0 0, ?_, wsRun_length _ _ _ _ _, ?_, ?_⟩
  · simp only [websocket_endpoint, hcond, Bool.false_eq_true, if_false]
  · rw [wsRun_eq]
    intro m hm
    simp only [List.mem_map, List.mem_range] at hm
    obtain ⟨k, -, rfl⟩ := hm
    exact ⟨_, _, _, _, rfl⟩
  · rw [wsRun_eq, List.map_map]
    rw [show (msgResult ∘ fun k =>
        WsMessage.update ((resultsOf items).getD k defaultResult) (0 + k + 1)
          items.length
          (((0 + succScoreSum ((resultsOf items).take (k + 1)) : Int) : ℚ)
            / ((0 + k + 1 : Nat) : ℚ))
          ((0 + succLatSum ((resultsOf items).take (k + 1)))
            / ((0 + k + 1 : Nat) : ℚ)))
      = fun k => some ((resultsOf items).getD k defaultResult) by
        funext k; simp [Function.comp, msgResult]]
    rw [show items.length = (resultsOf items).length from by simp [resultsOf]]
    rw [show ((fun k => some ((resultsOf items).getD k defaultResult)) : Nat → Option PipelineResult)
      = (some ∘ fun k => (resultsOf items).getD k defaultResult) from rfl]
    rw [← List.map_map, map_getD_range]

/-- A single-item run used to instantiate the streaming-shape theorem. -/
def demoSingle : List (ItemInput × StageWorld) := [(⟨1, "q", "r"⟩, okWorld 80)]

theorem websocket_endpoint_stream_witness :
    ∃ us : List WsMessage,
      websocket_endpoint demoSingle = us ++ [WsMessage.complete]
      ∧ us.length = demoSingle.length
      ∧ (∀ m ∈ us, ∃ r p a b, m = WsMessage.update r p demoSingle.length a b)
      ∧ us.map msgResult = (resultsOf demoSingle).map some :=
  websocket_endpoint_stream demoSingle (List.cons_ne_nil _ _)

/-- A three-item run whose pipeline scores are 80, 100 and (error): the first
two items succeed with scores 80 and 100, the third fails in the TTS stage. -/
def demoItems : List (ItemInput × StageWorld) :=
  [(⟨1, "q1", "ref"⟩, okWorld 80), (⟨2, "q2", "ref"⟩, okWorld 100),
   (⟨3, "q3", "ref"⟩, ttsErrWorld)]

/-- Claim C2 counterexample: after the three items with scores
`[80, 100, error]`, the third `update` message carries
`avg_score = (80 + 100) / 3 = 60` — the success-only sum divided by the count
of ALL processed items — not the mean `90` over the two successful items the
claim demands. -/
theorem websocket_avg_counterexample :
    ((websocket_endpoint demoItems)[2]?).bind msgAvgScore = some 60
    ∧ (60 : ℚ) ≠ 90 := by
  constructor
  · have hcond : demoItems.isEmpty = false := rfl
    simp only [websocket_endpoint, hcond, Bool.false_eq_true, if_false]
    rw [List.getElem?_append_left (by rw [wsRun_length]; decide)]
    rw [wsRun_eq, List.getElem?_map, List.getElem?_range (by decide)]
    have hsum : succScoreSum ((resultsOf demoItems).take 3) = 180 := by decide
    simp only [Option.map_some', Option.some_bind, msgAvgScore]
    norm_num [hsum]
  · norm_num

/-- Claim C2 (amended): the `k`-th `update` message carries
`avg_score = succScoreSum (first k+1 results) / (k+1)` and
`avg_latency = succLatSum (first k+1 results) / (k+1)` — numerators summed
over successful items only, but the divisor is the count of all processed
items — and the divisor at every emitted update is non-zero (the
`if processed else 0` guard would yield 0, but `processed ≥ 1` always holds
here). -/
theorem websocket_stats_divide_by_processed :
    ∀ (items : List (ItemInput × StageWorld)) (k : Nat), k < items.length →
      (websocket_endpoint items)[k]?
        = some (WsMessage.update ((resultsOf items).getD k defaultResult) (k + 1)
            items.length
            ((succScoreSum ((resultsOf items).take (k + 1)) : ℚ) / ((k + 1 : Nat) : ℚ))
            (succLatSum ((resultsOf items).take (k + 1)) / ((k + 1 : Nat) : ℚ)))
      ∧ ((k + 1 : Nat) : ℚ) ≠ 0 := by
  intro items k hk
  have hne : items ≠ [] := by
    intro h
    rw [h] at hk
    simp at hk
  have hcond : items.isEmpty = false := by simp [List.isEmpty_iff, hne]
  constructor
  · simp only [websocket_endpoint, hcond, Bool.false_eq_true, if_false]
    rw [List.getElem?_append_left (by rw [wsRun_length]; exact hk)]
    rw [wsRun_eq, List.getElem?_map, List.getElem?_range hk]
    simp
  · have h1 : (0 : ℚ) < ((k + 1 : Nat) : ℚ) := by positivity
    exact ne_of_gt h1

theorem websocket_stats_divide_by_processed_witness :
    ((websocket_endpoint demoItems)[0]?
        = some (WsMessage.update ((resultsOf demoItems).getD 0 defaultResult) 1
            demoItems.length
            ((succScoreSum ((resultsOf demoItems).take 1) : ℚ) / ((1 : Nat) : ℚ))
            (succLatSum ((resultsOf demoItems).take 1) / ((1 : Nat) : ℚ)))
      ∧ ((1 : Nat) : ℚ) ≠ 0) :=
  websocket_stats_divide_by_processed demoItems 0 (by decide)

end AICS
